import Mathlib

/-!
Verification development for the FragileCityScraper extraction and
normalization pipeline (scraper.js).

Shallow embedding conventions:
* JavaScript numbers are modelled as exact rationals; the special value
  `NaN` is modelled explicitly by the `JSNum.nan` constructor.  None of the
  claims under study depends on binary floating-point rounding.
* JavaScript's `null`/`undefined`-able scraped values are modelled by the
  `JSVal` sum; functions that can return `null` return an `Option`.
* The regular-expression searches used by the source
  (`/(-?[\d,]+)/`, `/(-?[\d,.]+)([kMG])?/`, `/([\d,.]+)\/([\d,.]+[kMG]?)/`)
  are embedded as executable leftmost-match scanners specialised to those
  patterns; the character classes involved are pairwise disjoint from the
  literal characters that follow them, so greedy matching without
  backtracking coincides with JS regex semantics.
* The DOM (cheerio) layer is an external collaborator: extractors receive
  the text fragments the DOM queries produce (heading texts, cell texts,
  tooltip/value pairs), and all text processing from that boundary on is
  embedded faithfully.
* Asynchronous execution is single-threaded cooperative scheduling (see
  spec section 5); `processBatch` is embedded as the sequential
  linearization in item order, which determines the same result and error
  multisets as any completion order.
-/

namespace FragileCity

instance {ε α : Type} [DecidableEq ε] [DecidableEq α] : DecidableEq (Except ε α) := fun x y =>
  match x, y with
  | .ok a, .ok b => if h : a = b then .isTrue (by rw [h]) else .isFalse (by simp [h])
  | .ok _, .error _ => .isFalse (by simp)
  | .error _, .ok _ => .isFalse (by simp)
  | .error a, .error b => if h : a = b then .isTrue (by rw [h]) else .isFalse (by simp [h])

/-! ## JavaScript value model -/

/-- A JavaScript number: an exact rational, or the special value `NaN`. -/
inductive JSNum where
  | rat (q : ℚ)
  | nan
  deriving DecidableEq, Repr

/-- Multiplication of a JS number by a natural (suffix) scale factor; `NaN`
propagates, mirroring IEEE semantics of `NaN * x`.  Phrased through `mkRat`
so that the kernel can evaluate it; `JSNum.scale_rat` identifies it with
rational multiplication. -/
def JSNum.scale (n : JSNum) (k : ℕ) : JSNum :=
  match n with
  | .rat q => .rat (mkRat (q.num * k) q.den)
  | .nan => .nan

/-- A scraped JavaScript value as stored in a raw record field. -/
inductive JSVal where
  | null
  | undef
  | num (n : JSNum)
  | str (s : String)
  | boolean (b : Bool)
  deriving DecidableEq, Repr

/-! ## Character classes of the source's regexes -/

/-- `\d` of a JS regex without the Unicode flag: the ASCII digits. -/
def isDigitC (c : Char) : Bool := '0' ≤ c && c ≤ '9'

/-- The class `[\d,.]` used by `parseStatNumber` and `extractStatValue`. -/
def isNumC (c : Char) : Bool := isDigitC c || c == ',' || c == '.'

/-- The class `[\d,]` used by `extractNumber`. -/
def isIntC (c : Char) : Bool := isDigitC c || c == ','

/-- The magnitude-suffix class `[kMG]` (case-sensitive). -/
def isSuffixC (c : Char) : Bool := c == 'k' || c == 'M' || c == 'G'

/-- ASCII whitespace as removed by `String.prototype.trim` (the inputs in
scope contain no exotic Unicode spaces). -/
def isJsSpace (c : Char) : Bool :=
  c == ' ' || c == '\t' || c == '\n' || c == '\r' ||
  c == Char.ofNat 11 || c == Char.ofNat 12

/-- `text.trim()` on the character list. -/
def jsTrim (l : List Char) : List Char :=
  ((l.dropWhile isJsSpace).reverse.dropWhile isJsSpace).reverse

/-- `str.replace(/,/g, '')`. -/
def stripCommas (l : List Char) : List Char := l.filter (fun c => !(c == ','))

/-! ## parseFloat / parseInt -/

/-- Decimal value of a digit list (most significant first). -/
def digitsToNat (l : List Char) : ℕ :=
  l.foldl (fun a c => a * 10 + (c.toNat - 48)) 0

/-- `parseFloat` restricted to the character repertoire the source feeds it
(an optional sign followed by digits and dots, commas already stripped):
longest numeric prefix `int ['.' frac]`, `NaN` when the mantissa holds no
digit.  The value `±(int.frac)` is built with `mkRat` so that the kernel
can evaluate it. -/
def jsParseFloat (l : List Char) : JSNum :=
  let sgn : ℤ := match l with | '-' :: _ => -1 | _ => 1
  let l1 := match l with | '-' :: t => t | '+' :: t => t | _ => l
  let ip := l1.takeWhile isDigitC
  let r1 := l1.dropWhile isDigitC
  let fp := match r1 with | '.' :: t => t.takeWhile isDigitC | _ => []
  if ip.isEmpty && fp.isEmpty then .nan
  else .rat (mkRat (sgn * ((digitsToNat ip : ℤ) * 10 ^ fp.length + digitsToNat fp)) (10 ^ fp.length))

/-- `parseInt` on the same repertoire: optional sign then a digit prefix,
`NaN` when no digit leads. -/
def jsParseInt (l : List Char) : JSNum :=
  let sgn : ℤ := match l with | '-' :: _ => -1 | _ => 1
  let l1 := match l with | '-' :: t => t | '+' :: t => t | _ => l
  let ip := l1.takeWhile isDigitC
  if ip.isEmpty then .nan else .rat (mkRat (sgn * (digitsToNat ip : ℤ)) 1)

/-! ## Leftmost regex matching -/

/-- Match `-?CLS+` anchored at the start of `l`; returns the matched token
and the remaining characters.  Mirrors JS alternation: a leading `-` is
consumed only when at least one class character follows it. -/
def matchSignedRun (cls : Char → Bool) : List Char → Option (List Char × List Char)
  | [] => none
  | c :: rest =>
    if c == '-' then
      match rest.takeWhile cls with
      | [] => none
      | run => some ('-' :: run, rest.dropWhile cls)
    else if cls c then
      some (c :: rest.takeWhile cls, rest.dropWhile cls)
    else none

/-- Match `CLS+` anchored at the start of `l`. -/
def matchRun (cls : Char → Bool) : List Char → Option (List Char × List Char)
  | [] => none
  | c :: rest =>
    if cls c then some (c :: rest.takeWhile cls, rest.dropWhile cls) else none

/-- Leftmost search: try `matchAt` at every suffix, left to right, exactly
as a JS regex engine advances its start position. -/
def scanMatch {α : Type} (matchAt : List Char → Option α) : List Char → Option α
  | [] => none
  | c :: t =>
    match matchAt (c :: t) with
    | some r => some r
    | none => scanMatch matchAt t

/-- Anchored match of `(-?[\d,.]+)([kMG])?` (the `parseStatNumber` regex):
token plus the optional captured suffix. -/
def statNumAt (l : List Char) : Option (List Char × Option Char) :=
  (matchSignedRun isNumC l).map fun p =>
    match p.2 with
    | s :: _ => if isSuffixC s then (p.1, some s) else (p.1, none)
    | [] => (p.1, none)

/-- Anchored match of `(-?[\d,.]+[kMG]?)` (the single-value regex of
`extractStatValue`): the full token including a trailing suffix. -/
def statSingleAt (l : List Char) : Option (List Char) :=
  (matchSignedRun isNumC l).map fun p =>
    match p.2 with
    | s :: _ => if isSuffixC s then p.1 ++ [s] else p.1
    | [] => p.1

/-- Anchored match of `([\d,.]+)\/([\d,.]+[kMG]?)` (the fraction regex of
`extractStatValue`): the two captured tokens.  Note the left class admits
no sign and no suffix letter. -/
def fractionAt (l : List Char) : Option (List Char × List Char) :=
  match matchRun isNumC l with
  | none => none
  | some (a, rest) =>
    match rest with
    | '/' :: rest2 =>
      match matchRun isNumC rest2 with
      | none => none
      | some (b, rest3) =>
        match rest3 with
        | s :: _ => if isSuffixC s then some (a, b ++ [s]) else some (a, b)
        | [] => some (a, b)
    | _ => none

/-! ## The number/unit parser (scraper.js lines 610-661) -/

/-- `extractNumber(text)` (scraper.js 610-617): falsy text gives `null`;
otherwise the first `(-?[\d,]+)` token is comma-stripped and `parseInt`ed,
and absence of a token gives `null`. -/
def extractNumber (text : String) : Option JSNum :=
  if text = "" then none
  else
    match scanMatch (matchSignedRun isIntC) text.toList with
    | none => none
    | some (tok, _) => some (jsParseInt (stripCommas tok))

/-- `parseStatNumber(text)` (scraper.js 646-661): falsy text gives `null`;
the text is trimmed, the first `(-?[\d,.]+)([kMG])?` match is comma-stripped
and `parseFloat`ed, and the captured suffix scales by 1e3/1e6/1e9. -/
def parseStatNumber (text : String) : Option JSNum :=
  if text = "" then none
  else
    match scanMatch statNumAt (jsTrim text.toList) with
    | none => none
    | some (tok, suff) =>
      let num := jsParseFloat (stripCommas tok)
      if suff = some 'k' then some (num.scale 1000)
      else if suff = some 'M' then some (num.scale 1000000)
      else if suff = some 'G' then some (num.scale 1000000000)
      else some num

/-- The dual-shape result of `extractStatValue`: a plain scalar or a
current/max pair (whose components are `parseStatNumber` results). -/
inductive StatValue where
  | single (v : JSNum)
  | range (current max : Option JSNum)
  deriving DecidableEq, Repr

/-- `extractStatValue(text)` (scraper.js 622-641): a fraction match
`([\d,.]+)\/([\d,.]+[kMG]?)` yields the current/max pair of independent
`parseStatNumber` parses; otherwise the first `(-?[\d,.]+[kMG]?)` token is
`parseStatNumber`ed, and `null` results pass through. -/
def extractStatValue (text : String) : Option StatValue :=
  if text = "" then none
  else
    match scanMatch fractionAt text.toList with
    | some (a, b) =>
      some (.range (parseStatNumber (String.mk a)) (parseStatNumber (String.mk b)))
    | none =>
      match scanMatch statSingleAt text.toList with
      | some tok => (parseStatNumber (String.mk tok)).map .single
      | none => none

/-! ## Record validator (scraper.js lines 70-97, 102-131) -/

/-- Structured form of the `{type, message, context, timestamp}` warnings the
source pushes with `addWarning`; each constructor keeps the data the message
template interpolates, without committing to JS number-to-string formatting. -/
inductive Warning where
  | invalidCityMissing (missing : List String) (city : JSVal)
  | invalidCityCitizens (citizens : JSVal) (city : JSVal)
  | invalidDetailsName
  | incompleteDetails (what : String) (city : String)
  | invalidDetailsCitizens (citizens : JSNum) (city : String)
  deriving DecidableEq, Repr

/-- A raw city-listing record as assembled by `scrapeCityList` (lines
282-290); the four scraped fields may be `null`/`undefined`. -/
structure RawCity where
  name : JSVal
  url : JSVal
  pollution : JSVal
  citizens : JSVal
  emailVerified : Bool
  isPatron : Bool
  hasContributed : Bool
  deriving DecidableEq, Repr

/-- `city[field] === null || city[field] === undefined`. -/
def JSVal.isAbsent : JSVal → Bool
  | .null => true
  | .undef => true
  | _ => false

/-- `typeof v === 'number'` (`NaN` is of number type). -/
def JSVal.isNumberType : JSVal → Bool
  | .num _ => true
  | _ => false

/-- The JS comparison `v < 0` as evaluated on the number-typed values the
validator can reach (`NaN < 0` is `false`). -/
def JSVal.ltZero : JSVal → Bool
  | .num (.rat q) => decide (q.num < 0)
  | _ => false

/-- The spec-side notion "a non-negative number" read with JS semantics: a
value of number type that does not compare less than zero.  Under JS
comparison rules `NaN` satisfies this (it is number-typed and `NaN < 0` is
false), which is exactly the code's acceptance condition. -/
def isNonNegativeNumberJS (v : JSVal) : Bool := v.isNumberType && !v.ltZero

/-- The required-field list of `validateCity` (line 84), in source order. -/
def requiredCityFields (c : RawCity) : List (String × JSVal) :=
  [("name", c.name), ("url", c.url), ("pollution", c.pollution), ("citizens", c.citizens)]

/-- `requiredFields.filter(field => city[field] === null || undefined)`. -/
def missingCityFields (c : RawCity) : List String :=
  ((requiredCityFields c).filter (fun p => p.2.isAbsent)).map Prod.fst

/-- `validateCity` (lines 83-97): missing required field rejects with one
warning; otherwise a citizens value that is not number-typed or compares
below zero queues a warning but the record is accepted. -/
def validateCity (c : RawCity) : Bool × List Warning :=
  let missing := missingCityFields c
  if missing.isEmpty then
    if !(c.citizens.isNumberType) || c.citizens.ltZero then
      (true, [.invalidCityCitizens c.citizens c.name])
    else (true, [])
  else (false, [.invalidCityMissing missing c.name])

/-- One validate-and-push step of `scrapeCityList` (lines 292-295): the
record is appended only when `validateCity` accepts it; its warnings join
the run log either way. -/
def collectStep (acc : List RawCity × List Warning) (r : RawCity) :
    List RawCity × List Warning :=
  (if (validateCity r).1 then acc.1 ++ [r] else acc.1, acc.2 ++ (validateCity r).2)

/-- The validation filter of `scrapeCityList` over the already-assembled
raw records, accumulating the run's warning log. -/
def collectCities (raw : List RawCity) : List RawCity × List Warning :=
  raw.foldl collectStep ([], [])

/-! ## Batch scheduler (scraper.js lines 39-65) -/

/-- The non-null results one window of `Promise.all` contributes
(`batchResults.filter(r => r !== null)`): per-item errors were replaced by
`null` and successful `null` returns are indistinguishable from them. -/
def windowResults {α β : Type} (f : α → Except String (Option β)) (batch : List α) : List β :=
  batch.filterMap fun it => match f it with | .ok v => v | .error _ => none

/-- The `{item, error}` entries one window pushes, in item order (the
in-window completion order is unobservable in the aggregate). -/
def windowErrors {α β : Type} (f : α → Except String (Option β)) (batch : List α) :
    List (α × String) :=
  batch.filterMap fun it => match f it with | .error e => some (it, e) | .ok _ => none

/-- Window loop of `processBatch`, structurally recursive on a fuel that
starts at `items.length` (each window consumes at least one item when the
concurrency is positive).  For concurrency 0 the JS loop `i += 0` never
terminates; that unreachable configuration is modelled as an empty result
and excluded by hypothesis in every theorem. -/
def processBatchGo {α β : Type} (f : α → Except String (Option β)) (c : ℕ) :
    ℕ → List α → List β × List (α × String)
  | _, [] => ([], [])
  | 0, _ :: _ => ([], [])
  | fuel + 1, x :: xs =>
    if c = 0 then ([], [])
    else
      let rest := processBatchGo f c fuel ((x :: xs).drop c)
      (windowResults f ((x :: xs).take c) ++ rest.1,
       windowErrors f ((x :: xs).take c) ++ rest.2)

/-- `processBatch(items, processFn, concurrency)` (lines 39-65): fixed-size
windows, per-item failure caught and recorded, `null` filtered out of the
results. -/
def processBatch {α β : Type} (items : List α) (f : α → Except String (Option β)) (c : ℕ) :
    List β × List (α × String) :=
  processBatchGo f c items.length items

/-! ## Transport (scraper.js lines 158-177) -/

/-- `options.maxRetries || 3` and friends (constructor lines 15-17): JS
`||` replaces every falsy value, so an explicit 0 also takes the default. -/
def jsOrDefault (o : Option ℕ) (d : ℕ) : ℕ :=
  match o with
  | some n => if n = 0 then d else n
  | none => d

def defaultMaxRetries : ℕ := 3

def defaultRetryDelay : ℕ := 1000

def defaultConcurrency : ℕ := 5

/-- Body of `fetchWithRetry`, recursing on the remaining retry budget
`fuel = maxRetries - retryCount` (the source guard `retryCount < maxRetries`
is exactly `0 < fuel`).  `oracle n` is the outcome of the attempt with
`retryCount = n`; the result triple is (final outcome, total attempts
issued, backoff delays slept in order). -/
def fetchGo {α : Type} (retryDelay : ℕ) (oracle : ℕ → Except String α) :
    ℕ → ℕ → Except String α × ℕ × List ℕ
  | 0, rc =>
    match oracle rc with
    | .ok d => (.ok d, 1, [])
    | .error e => (.error e, 1, [])
  | fuel + 1, rc =>
    match oracle rc with
    | .ok d => (.ok d, 1, [])
    | .error e =>
      let r := fetchGo retryDelay oracle fuel (rc + 1)
      (r.1, r.2.1 + 1, retryDelay * 2 ^ rc :: r.2.2)

/-- `fetchWithRetry(url, options)` entered with the default `retryCount = 0`
(line 158); the URL and axios options do not affect the control flow and are
absorbed into the oracle. -/
def fetchWithRetry {α : Type} (maxRetries retryDelay : ℕ) (oracle : ℕ → Except String α) :
    Except String α × ℕ × List ℕ :=
  fetchGo retryDelay oracle maxRetries 0

/-! ## Wars and enrichment (scraper.js lines 357-363, 706-712) -/

structure War where
  attacker : String
  attackerUrl : String
  defender : String
  defenderUrl : String
  missiles : Option JSNum
  deriving DecidableEq, Repr

structure EnrichedWar where
  war : War
  attackerActive : Bool
  defenderActive : Bool
  bothActive : Bool
  deriving DecidableEq, Repr

/-- The enrichment of `runFullScrape` (lines 706-712): the active-city set
is the name list of the accepted city records; `Set.has` is string
equality, i.e. list membership. -/
def enrichWars (wars : List War) (activeNames : List String) : List EnrichedWar :=
  wars.map fun w =>
    { war := w
      attackerActive := activeNames.contains w.attacker
      defenderActive := activeNames.contains w.defender
      bothActive := activeNames.contains w.attacker && activeNames.contains w.defender }

/-! ## JS object model -/

/-- `obj[k] = v`: overwrite in place when the key exists, else append
(insertion order is preserved, as for JS string-keyed objects; every object
in this development is built by `objSet` from `[]`, so keys are unique). -/
def objSet {V : Type} : List (String × V) → String → V → List (String × V)
  | [], k, v => [(k, v)]
  | p :: t, k, v => if p.1 == k then (k, v) :: t else p :: objSet t k v

/-- `obj[k]` as an `Option`: the first (and in this development only)
entry with the key. -/
def objGet {V : Type} : List (String × V) → String → Option V
  | [], _ => none
  | p :: t, k => if p.1 == k then some p.2 else objGet t k

/-! ## City-detail extraction (scraper.js lines 387-605)

The cheerio queries are the document boundary: a `CityPage` holds the text
fragments those queries deliver (header/cell texts of the first table,
tooltip/value text pairs of the stat cells, heading text and optional green
count-cell text per building section, alt/value text pairs of the resource
rows, the pre-structured job levels, and the sanction names). -/

structure JobLevel where
  level : JSNum
  taxRate : Option JSNum
  citizens : JSNum
  totalJobs : JSNum
  availableJobs : JSNum
  deriving DecidableEq, Repr

structure CityPage where
  infoHeaders : List String
  infoCells : List String
  statCells : List (String × String)
  jobLevels : List JobLevel
  sanctions : List String
  resourceRows : List (Option String × String)
  buildingSections : List (String × Option String)

structure CityInfo where
  region : Option String := none
  year : Option JSNum := none
  day : Option JSNum := none
  season : Option String := none
  citizens : Option JSNum := none
  deriving DecidableEq, Repr

/-- One step of the header-indexed first-table walk (lines 429-445). -/
def applyInfoCell (ci : CityInfo) (i : ℕ) (header : Option String) (value : String) : CityInfo :=
  if header = some "Year" then { ci with year := some (jsParseInt value.toList) }
  else if header = some "Day" then { ci with day := some (jsParseInt value.toList) }
  else if header = some "Season" then { ci with season := some value }
  else if header = some "Citizens" then
    { ci with citizens := some (jsParseInt (stripCommas value.toList)) }
  else if i = 0 then { ci with region := some value }
  else ci

def extractCityInfo (headers cells : List String) : CityInfo :=
  cells.enum.foldl (fun ci p => applyInfoCell ci p.1 (headers.get? p.1) p.2) {}

/-- The tooltip-label table of lines 398-414, in `Object.keys` (insertion)
order. -/
def statLabels : List (String × String) :=
  [("Pollution", "pollution"), ("Housing", "housing"), ("Jobs", "jobs"),
   ("Food capacity", "foodCapacity"), ("Daily Food Consumption", "dailyFoodConsumption"),
   ("Money", "money"), ("Daily Tax Income", "dailyTaxIncome"), ("Daily Cost", "dailyCost"),
   ("Energy", "energy"), ("Area", "area"), ("Sprawl", "sprawl"), ("Crime", "crime"),
   ("Fun", "fun"), ("Culture", "culture"), ("Health", "health")]

def hasPrefixL : List Char → List Char → Bool
  | [], _ => true
  | _ :: _, [] => false
  | a :: as, b :: bs => a == b && hasPrefixL as bs

def containsL (needle : List Char) : List Char → Bool
  | [] => needle.isEmpty
  | c :: t => hasPrefixL needle (c :: t) || containsL needle t

/-- `hay.includes(needle)`. -/
def strContains (hay needle : String) : Bool := containsL needle.toList hay.toList

/-- One stat cell against every label (lines 448-468): exact or substring
tooltip match, value through `extractStatValue`, `null` values skipped. -/
def statStep (st : List (String × StatValue)) (cell : String × String) :
    List (String × StatValue) :=
  statLabels.foldl
    (fun st p =>
      if cell.1 == p.1 || strContains cell.1 p.1 then
        match extractStatValue cell.2 with
        | some v => objSet st p.2 v
        | none => st
      else st)
    st

def extractStats (cells : List (String × String)) : List (String × StatValue) :=
  cells.foldl statStep []

/-! Resources (lines 516-545).  Note the fraction regex here,
`([\d.]+[kMG]?)\/([\d.]+[kMG]?)`, differs from the one in
`extractStatValue`: no commas in the class, and the left operand may carry
a magnitude suffix. -/

def isResC (c : Char) : Bool := isDigitC c || c == '.'

/-- Anchored match of `([\d.]+[kMG]?)\/([\d.]+[kMG]?)`. -/
def resFractionAt (l : List Char) : Option (List Char × List Char) :=
  match matchRun isResC l with
  | none => none
  | some (a, rest) =>
    let ar : List Char × List Char :=
      match rest with
      | s :: r => if isSuffixC s then (a ++ [s], r) else (a, rest)
      | [] => (a, rest)
    match ar.2 with
    | '/' :: r3 =>
      match matchRun isResC r3 with
      | none => none
      | some (b, rest4) =>
        match rest4 with
        | s :: _ => if isSuffixC s then some (ar.1, b ++ [s]) else some (ar.1, b)
        | [] => some (ar.1, b)
    | _ => none

def isWordC (c : Char) : Bool :=
  isDigitC c || ('a' ≤ c && c ≤ 'z') || ('A' ≤ c && c ≤ 'Z') || c == '_'

/-- Anchored match of `total\s+(\w+)`: the captured resource name. -/
def totalNameAt (l : List Char) : Option (List Char) :=
  if hasPrefixL "total".toList l then
    let rest := l.drop 5
    if (rest.takeWhile isJsSpace).isEmpty then none
    else
      match (rest.dropWhile isJsSpace).takeWhile isWordC with
      | [] => none
      | w => some w
  else none

/-- One resource row (lines 517-545): rows whose alt text contains `total`
and matches `/total\s+(\w+)/` contribute a current/max pair when the value
text matches the suffix-tolerant fraction regex, else a scalar when
`parseStatNumber` is non-null. -/
def resourceStep (res : List (String × StatValue)) (row : Option String × String) :
    List (String × StatValue) :=
  match row.1 with
  | none => res
  | some alt =>
    if strContains alt "total" then
      match scanMatch totalNameAt alt.toList with
      | none => res
      | some nameChars =>
        let rname := String.mk nameChars
        match scanMatch resFractionAt row.2.toList with
        | some (a, b) =>
          objSet res rname (.range (parseStatNumber (String.mk a)) (parseStatNumber (String.mk b)))
        | none =>
          match parseStatNumber row.2 with
          | some v => objSet res rname (.single v)
          | none => res
    else res

def extractResources (rows : List (Option String × String)) : List (String × StatValue) :=
  rows.foldl resourceStep []

/-! Buildings (lines 548-574). -/

/-- `replace(/\s+/g, '_')`: every maximal whitespace run becomes one
underscore. -/
def collapseWsGo : Bool → List Char → List Char
  | _, [] => []
  | prevSpace, c :: t =>
    if isJsSpace c then
      if prevSpace then collapseWsGo true t else '_' :: collapseWsGo true t
    else c :: collapseWsGo false t

/-- `buildingName.toLowerCase().replace(/\s+/g, '_')` (lines 565, 570). -/
def cleanBuildingName (s : String) : String :=
  String.mk (collapseWsGo false (s.toList.map Char.toLower))

/-- One building section (lines 551-574): a nonempty heading with a green
count cell stores the extracted count when it is non-null; a nonempty
heading with no green cell stores an explicit 0. -/
def buildingStep (b : List (String × JSNum)) (sec : String × Option String) :
    List (String × JSNum) :=
  if sec.1 = "" then b
  else
    match sec.2 with
    | some cellText =>
      match extractNumber cellText with
      | some count => objSet b (cleanBuildingName sec.1) count
      | none => b
    | none => objSet b (cleanBuildingName sec.1) (.rat 0)

def extractBuildings (sections : List (String × Option String)) : List (String × JSNum) :=
  sections.foldl buildingStep []

/-! URL construction and `scrapeCity` proper. -/

def isUriUnreserved (c : Char) : Bool :=
  isDigitC c || ('a' ≤ c && c ≤ 'z') || ('A' ≤ c && c ≤ 'Z') ||
  c == '-' || c == '_' || c == '.' || c == '!' || c == '~' || c == '*' ||
  c == Char.ofNat 39 || c == '(' || c == ')'

def hexDigitC (n : ℕ) : Char := if n < 10 then Char.ofNat (48 + n) else Char.ofNat (55 + n)

/-- UTF-8 bytes of a Unicode scalar value (JS `encodeURIComponent` encodes
the UTF-8 form; lone surrogates, on which it would throw, are not
representable in `Char`). -/
def utf8Bytes (n : ℕ) : List ℕ :=
  if n < 128 then [n]
  else if n < 2048 then [192 + n / 64, 128 + n % 64]
  else if n < 65536 then [224 + n / 4096, 128 + n / 64 % 64, 128 + n % 64]
  else [240 + n / 262144, 128 + n / 4096 % 64, 128 + n / 64 % 64, 128 + n % 64]

def pctEncodeChar (c : Char) : List Char :=
  (utf8Bytes c.toNat).foldr (fun b acc => '%' :: hexDigitC (b / 16) :: hexDigitC (b % 16) :: acc) []

def encodeURIComponent (s : String) : String :=
  String.mk (s.toList.foldr (fun c acc => if isUriUnreserved c then c :: acc else pctEncodeChar c ++ acc) [])

def baseUrl : String := "https://fragile.city"

/-- The per-city URL `${baseUrl}/city/${encodeURIComponent(cityName)}`
(lines 389 and 600). -/
def cityUrl (name : String) : String := baseUrl ++ "/city/" ++ encodeURIComponent name

/-- The success payload of a city-detail scrape (lines 576-590). -/
structure CityDetailData where
  name : String
  url : String
  region : Option String
  year : Option JSNum
  day : Option JSNum
  season : Option String
  citizens : Option JSNum
  stats : List (String × StatValue)
  jobLevels : List JobLevel
  resources : List (String × StatValue)
  buildings : List (String × JSNum)
  sanctionedBy : List String
  scrapedAt : String
  deriving DecidableEq, Repr

/-- A city-detail result: the success variant, or the failed variant of the
catch block (lines 598-603) carrying exactly name, url, error and
scrapedAt. -/
inductive CityDetail where
  | success (d : CityDetailData)
  | failed (name url error scrapedAt : String)
  deriving DecidableEq, Repr

/-- An entry of the run's `this.errors` list (line 597). -/
structure ErrEntry where
  etype : String
  city : String
  message : String
  timestamp : String
  deriving DecidableEq, Repr

/-- `validateCityDetails` (lines 102-131). -/
def validateCityDetails (d : CityDetailData) : Bool × List Warning :=
  if d.name = "" then (false, [.invalidDetailsName])
  else
    let w1 := if d.stats.isEmpty then [Warning.incompleteDetails "stats" d.name] else []
    let w2 := if d.jobLevels.isEmpty then [Warning.incompleteDetails "jobLevels" d.name] else []
    let w3 := if d.resources.isEmpty then [Warning.incompleteDetails "resources" d.name] else []
    let w4 := if d.buildings.isEmpty then [Warning.incompleteDetails "buildings" d.name] else []
    let w5 :=
      match d.citizens with
      | some (.rat q) =>
        if q.num < 0 then [Warning.invalidDetailsCitizens (.rat q) d.name] else []
      | _ => []
    (true, w1 ++ w2 ++ w3 ++ w4 ++ w5)

/-- `scrapeCity(cityName)` (lines 387-605) against the outcome of its
(retried) fetch: the whole body sits in one try/catch, so the function is
total — it returns a success record plus detail-validation warnings, or
the failed-variant record plus one entry for the run's error list.  `now`
stands for the `new Date().toISOString()` reads. -/
def scrapeCity (cityName : String) (fetched : Except String CityPage) (now : String) :
    CityDetail × List ErrEntry × List Warning :=
  match fetched with
  | .ok page =>
    let ci := extractCityInfo page.infoHeaders page.infoCells
    let d : CityDetailData :=
      { name := cityName
        url := cityUrl cityName
        region := ci.region
        year := ci.year
        day := ci.day
        season := ci.season
        citizens := ci.citizens
        stats := extractStats page.statCells
        jobLevels := page.jobLevels
        resources := extractResources page.resourceRows
        buildings := extractBuildings page.buildingSections
        sanctionedBy := page.sanctions
        scrapedAt := now }
    (.success d, [], (validateCityDetails d).2)
  | .error msg =>
    (.failed cityName (cityUrl cityName) msg now, [⟨"city", cityName, msg, now⟩], [])

/-! ## Orchestrator phase 4 and run metadata (scraper.js lines 727-749) -/

/-- Phase 4 of `runFullScrape`: the batch over the listed cities with a
per-city operation, which in the source is `scrapeCity` — total and
null-free, so every item yields `.ok (some record)`. -/
def phase4 (cities : List RawCity) (g : RawCity → CityDetail) (c : ℕ) :
    List CityDetail × List (RawCity × String) :=
  processBatch cities (fun city => Except.ok (some (g city))) c

/-- The count fields of the run metadata object (lines 738-749). -/
structure RunMetadata where
  totalCities : ℕ
  successfulScrapes : ℕ
  failedScrapes : ℕ
  deriving DecidableEq, Repr

def buildRunMetadata (cities : List RawCity) (details : List CityDetail)
    (errs : List (RawCity × String)) : RunMetadata :=
  { totalCities := cities.length
    successfulScrapes := details.length
    failedScrapes := errs.length }

/-- The per-city operation passed to `processBatch` in phase 4 of
`runFullScrape` (lines 727-734): `async (city) => this.scrapeCity(city.name)`.
The name projection and the fetch outcome are the operation's free inputs. -/
def scrapeCityOp (nameOf : RawCity → String) (fetchOf : RawCity → Except String CityPage)
    (now : String) : RawCity → CityDetail :=
  fun city => (scrapeCity (nameOf city) (fetchOf city) now).1

/-! ## Concrete fixtures for witnesses and counterexamples -/

/-- An operation that can resolve with `null` on success. -/
def nullOp : ℕ → Except String (Option ℕ) := fun _ => Except.ok none

/-- A three-item operation with one failing item. -/
def mixedOp : ℕ → Except String (Option ℕ) :=
  fun n => if n = 2 then Except.error "bad" else Except.ok (some (n * 10))

/-- An oracle whose every attempt fails with the same network error. -/
def failOracle : ℕ → Except String Unit := fun _ => Except.error "ECONNREFUSED"

def warEx : War := ⟨"A", "uA", "B", "uB", some (.rat 5)⟩

def cityRecA : RawCity :=
  ⟨.str "A", .str "uA", .num (.rat 1), .num (.rat 2), false, false, false⟩

def cityRecB : RawCity :=
  ⟨.str "B", .str "uB", .num (.rat 3), .num (.rat 4), true, false, false⟩

/-- The name projection used by phase 4 for the fixture records. -/
def nameOfEx : RawCity → String := fun c => match c.name with | .str s => s | _ => ""

/-- A per-city fetch that always exhausts its retries. -/
def fetchFailEx : RawCity → Except String CityPage := fun _ => Except.error "ECONNRESET"

/-- A record whose `url` field is absent. -/
def cityRecNoUrl : RawCity :=
  ⟨.str "X", .null, .num (.rat 3), .num (.rat 10), false, false, false⟩

/-- A complete record whose citizens count is negative. -/
def cityRecNegCitizens : RawCity :=
  ⟨.str "X", .str "u", .num (.rat 3), .num (.rat (-5)), false, false, false⟩

/-! ## Helper lemmas -/

theorem JSNum.scale_rat (q : ℚ) (k : ℕ) : (JSNum.rat q).scale k = .rat (q * k) := by
  show JSNum.rat (mkRat (q.num * k) q.den) = _
  rw [Rat.mkRat_eq_div]
  push_cast
  rw [mul_div_right_comm, Rat.num_div_den]

theorem jsOrDefault_pos (o : Option ℕ) (d : ℕ) (hd : 0 < d) : 0 < jsOrDefault o d := by
  cases o with
  | none => exact hd
  | some n =>
    by_cases h : n = 0
    · simpa [jsOrDefault, h] using hd
    · simp only [jsOrDefault, if_neg h]
      omega

theorem windowResults_map {α β : Type} (g : α → β) (batch : List α) :
    windowResults (fun a => Except.ok (some (g a))) batch = batch.map g := by
  induction batch with
  | nil => rfl
  | cons x xs ih => simp [windowResults, List.filterMap] at ih ⊢; exact ih

theorem windowErrors_map {α β : Type} (g : α → β) (batch : List α) :
    windowErrors (fun a => Except.ok (some (g a))) batch = [] := by
  induction batch with
  | nil => rfl
  | cons x xs ih => simpa [windowErrors, List.filterMap] using ih

theorem processBatchGo_map {α β : Type} (g : α → β) (c : ℕ) (hc : 0 < c) :
    ∀ (fuel : ℕ) (items : List α), items.length ≤ fuel →
      processBatchGo (fun a => Except.ok (some (g a))) c fuel items = (items.map g, []) := by
  intro fuel
  induction fuel with
  | zero =>
    intro items h
    have : items = [] := List.eq_nil_of_length_eq_zero (Nat.le_zero.mp h)
    subst this; rfl
  | succ fuel ih =>
    intro items h
    match items with
    | [] => rfl
    | x :: xs =>
      have hrec := ih ((x :: xs).drop c)
        (by simp only [List.length_drop, List.length_cons] at h ⊢; omega)
      simp only [processBatchGo, if_neg (Nat.pos_iff_ne_zero.mp hc), hrec,
        windowResults_map, windowErrors_map]
      rw [← List.map_append, List.take_append_drop, List.nil_append]

theorem processBatch_map {α β : Type} (g : α → β) (c : ℕ) (hc : 0 < c) (items : List α) :
    processBatch items (fun a => Except.ok (some (g a))) c = (items.map g, []) :=
  processBatchGo_map g c hc items.length items le_rfl

theorem window_count {α β : Type} (f : α → Except String (Option β)) (batch : List α)
    (hf : ∀ a ∈ batch, f a ≠ .ok none) :
    (windowResults f batch).length + (windowErrors f batch).length = batch.length := by
  induction batch with
  | nil => rfl
  | cons x xs ih =>
    have hx := hf x (by simp)
    have hxs : ∀ a ∈ xs, f a ≠ .ok none := fun a ha => hf a (by simp [ha])
    match hfa : f x with
    | .ok none => exact absurd hfa hx
    | .ok (some b) =>
      simp only [windowResults, windowErrors, List.filterMap_cons, hfa]
      have := ih hxs
      simp only [windowResults, windowErrors] at this
      simp [this]; omega
    | .error e =>
      simp only [windowResults, windowErrors, List.filterMap_cons, hfa]
      have := ih hxs
      simp only [windowResults, windowErrors] at this
      simp [this]; omega

theorem window_mem_error {α β : Type} (f : α → Except String (Option β)) (batch : List α)
    (a : α) (ha : a ∈ batch) (e : String) (hfa : f a = .error e) :
    (a, e) ∈ windowErrors f batch :=
  List.mem_filterMap.mpr ⟨a, ha, by simp [hfa]⟩

theorem window_mem_ok {α β : Type} (f : α → Except String (Option β)) (batch : List α)
    (a : α) (ha : a ∈ batch) (b : β) (hfa : f a = .ok (some b)) :
    b ∈ windowResults f batch :=
  List.mem_filterMap.mpr ⟨a, ha, by simp [hfa]⟩

theorem processBatchGo_spec {α β : Type} (f : α → Except String (Option β)) (c : ℕ)
    (hc : 0 < c) :
    ∀ (fuel : ℕ) (items : List α), items.length ≤ fuel →
      (∀ a ∈ items, f a ≠ .ok none) →
      ((processBatchGo f c fuel items).1.length +
          (processBatchGo f c fuel items).2.length = items.length) ∧
      (∀ a ∈ items,
        (∀ e, f a = .error e → (a, e) ∈ (processBatchGo f c fuel items).2) ∧
        (∀ b, f a = .ok (some b) → b ∈ (processBatchGo f c fuel items).1)) := by
  intro fuel
  induction fuel with
  | zero =>
    intro items h _
    have : items = [] := List.eq_nil_of_length_eq_zero (Nat.le_zero.mp h)
    subst this
    exact ⟨rfl, by simp⟩
  | succ fuel ih =>
    intro items h hf
    match items with
    | [] => exact ⟨rfl, by simp⟩
    | x :: xs =>
      have hdl : ((x :: xs).drop c).length ≤ fuel := by
        simp only [List.length_drop, List.length_cons] at h ⊢; omega
      have hdf : ∀ a ∈ (x :: xs).drop c, f a ≠ .ok none := fun a ha =>
        hf a (List.mem_of_mem_drop ha)
      have hrec := ih ((x :: xs).drop c) hdl hdf
      have htf : ∀ a ∈ (x :: xs).take c, f a ≠ .ok none := fun a ha =>
        hf a (List.mem_of_mem_take ha)
      simp only [processBatchGo, if_neg (Nat.pos_iff_ne_zero.mp hc)]
      constructor
      · simp only [List.length_append]
        have hw := window_count f ((x :: xs).take c) htf
        have hlen : ((x :: xs).take c).length + ((x :: xs).drop c).length =
            (x :: xs).length := by
          rw [← List.length_append, List.take_append_drop]
        omega
      · intro a ha
        have hsplit : a ∈ (x :: xs).take c ∨ a ∈ (x :: xs).drop c := by
          rw [← List.mem_append, List.take_append_drop]; exact ha
        constructor
        · intro e hfa
          rcases hsplit with hmem | hmem
          · exact List.mem_append.mpr (Or.inl (window_mem_error f _ a hmem e hfa))
          · exact List.mem_append.mpr (Or.inr (((hrec.2 a hmem).1 e hfa)))
        · intro b hfa
          rcases hsplit with hmem | hmem
          · exact List.mem_append.mpr (Or.inl (window_mem_ok f _ a hmem b hfa))
          · exact List.mem_append.mpr (Or.inr (((hrec.2 a hmem).2 b hfa)))

theorem fetchGo_spec {α : Type} (d : ℕ) (o : ℕ → Except String α) :
    ∀ (fuel rc : ℕ),
      1 ≤ (fetchGo d o fuel rc).2.1 ∧
      (fetchGo d o fuel rc).2.1 ≤ fuel + 1 ∧
      (fetchGo d o fuel rc).2.2 =
        (List.range ((fetchGo d o fuel rc).2.1 - 1)).map (fun i => d * 2 ^ (rc + i)) ∧
      ∀ e, (fetchGo d o fuel rc).1 = .error e →
        (fetchGo d o fuel rc).2.1 = fuel + 1 ∧ o (rc + fuel) = .error e := by
  intro fuel
  induction fuel with
  | zero =>
    intro rc
    match ho : o rc with
    | .ok v => simp [fetchGo, ho]
    | .error e =>
      have heq0 : fetchGo d o 0 rc = (.error e, 1, []) := by
        simp [fetchGo, ho]
      rw [heq0]
      dsimp only
      refine ⟨le_rfl, by omega, by simp, ?_⟩
      intro e' he'
      exact ⟨rfl, by simpa [ho] using he'⟩
  | succ fuel ih =>
    intro rc
    match ho : o rc with
    | .ok v => simp [fetchGo, ho]
    | .error e =>
      obtain ⟨h1, h2, h3, h4⟩ := ih (rc + 1)
      have heq : fetchGo d o (fuel + 1) rc =
          ((fetchGo d o fuel (rc + 1)).1, (fetchGo d o fuel (rc + 1)).2.1 + 1,
            d * 2 ^ rc :: (fetchGo d o fuel (rc + 1)).2.2) := by
        simp [fetchGo, ho]
      rw [heq]
      dsimp only
      have hn : (fetchGo d o fuel (rc + 1)).2.1 - 1 + 1 =
          (fetchGo d o fuel (rc + 1)).2.1 := by omega
      refine ⟨by omega, by omega, ?_, ?_⟩
      · rw [Nat.add_sub_cancel, h3]
        conv_rhs => rw [← hn]
        rw [List.range_succ_eq_map, List.map_cons, List.map_map]
        have hfun : ((fun i => d * 2 ^ (rc + i)) ∘ Nat.succ) =
            fun i => d * 2 ^ (rc + 1 + i) := by
          funext i
          have hi : rc + Nat.succ i = rc + 1 + i := by omega
          simp only [Function.comp_apply, hi]
        rw [hfun]
        simp
      · intro e' he'
        obtain ⟨ha, hb⟩ := h4 e' he'
        refine ⟨by omega, ?_⟩
        rw [show rc + (fuel + 1) = rc + 1 + fuel by omega]
        exact hb

/-! ## Claim theorems -/

/-- C2 (counterexample): the claimed invariant `results + errors = N` fails
as stated: a per-item operation that resolves successfully with `null` is
filtered out of the results without an error entry, so for one item and
concurrency 1 both collections are empty. -/
theorem processBatch_counts_cex :
    (processBatch [0] nullOp 1).1.length + (processBatch [0] nullOp 1).2.length ≠
      ([0] : List ℕ).length := by decide

/-- C2 (amended): for every item sequence, positive concurrency, and
per-item operation that never resolves with `null`, `processBatch` accounts
for every item: `results + errors = N`, and each item's failure is caught
and recorded as its own `{item, error}` entry while each success lands in
the results — no failure suppresses any other item of the same or a later
window. -/
theorem processBatch_partition {α β : Type} (items : List α)
    (f : α → Except String (Option β)) (c : ℕ) (hc : 0 < c)
    (hf : ∀ a ∈ items, f a ≠ .ok none) :
    ((processBatch items f c).1.length + (processBatch items f c).2.length = items.length) ∧
    (∀ a ∈ items,
      (∀ e, f a = .error e → (a, e) ∈ (processBatch items f c).2) ∧
      (∀ b, f a = .ok (some b) → b ∈ (processBatch items f c).1)) :=
  processBatchGo_spec f c hc items.length items le_rfl hf

/-- Witness for C2: three items at concurrency 2 with one failing item:
all three are accounted for and the failure is recorded. -/
theorem processBatch_partition_witness :
    ((processBatch [1, 2, 3] mixedOp 2).1.length +
        (processBatch [1, 2, 3] mixedOp 2).2.length = 3) ∧
      ((2 : ℕ), "bad") ∈ (processBatch [1, 2, 3] mixedOp 2).2 ∧
      (30 : ℕ) ∈ (processBatch [1, 2, 3] mixedOp 2).1 := by
  have h := processBatch_partition [1, 2, 3] mixedOp 2 (by decide) (by decide)
  exact ⟨h.1, ((h.2 2 (by decide)).1 "bad" (by decide)),
    ((h.2 3 (by decide)).2 30 (by decide))⟩

/-- C3: `fetchWithRetry` issues at most `maxRetries + 1` attempts; the
delays slept are exactly `retryDelay * 2^(k-1)` before retry `k` (the list
of delays is `[retryDelay * 2^0, retryDelay * 2^1, ...]`); and when the
outcome is an error, all `maxRetries + 1` attempts were used and the error
is the last attempt's own error, propagated unchanged. -/
theorem fetchWithRetry_retry_policy {α : Type} (m d : ℕ) (o : ℕ → Except String α) :
    (fetchWithRetry m d o).2.1 ≤ m + 1 ∧
    (fetchWithRetry m d o).2.2 =
      (List.range ((fetchWithRetry m d o).2.1 - 1)).map (fun i => d * 2 ^ i) ∧
    ∀ e, (fetchWithRetry m d o).1 = .error e →
      (fetchWithRetry m d o).2.1 = m + 1 ∧ o m = .error e := by
  obtain ⟨h1, h2, h3, h4⟩ := fetchGo_spec d o m 0
  refine ⟨h2, by simpa using h3, ?_⟩
  intro e he
  obtain ⟨ha, hb⟩ := h4 e he
  exact ⟨ha, by simpa using hb⟩

/-- Witness for C3: with the default `maxRetries = 3` and an always-failing
oracle, exactly 4 attempts are made, the delays are 1000, 2000, 4000, and
the propagated error is the fourth attempt's error. -/
theorem fetchWithRetry_retry_policy_witness :
    (fetchWithRetry defaultMaxRetries defaultRetryDelay failOracle).2.1 =
        defaultMaxRetries + 1 ∧
      failOracle defaultMaxRetries = .error "ECONNREFUSED" ∧
      (fetchWithRetry defaultMaxRetries defaultRetryDelay failOracle).2.2 =
        [1000, 2000, 4000] := by
  have h := (fetchWithRetry_retry_policy defaultMaxRetries defaultRetryDelay failOracle).2.2
    "ECONNREFUSED" (by decide)
  exact ⟨h.1, h.2, by decide⟩

/-- C7: for every extracted war and active-city set, enrichment sets
`attackerActive` to set membership of the attacker, `defenderActive` to set
membership of the defender, and `bothActive` to their conjunction, leaving
the war record itself unchanged. -/
theorem enrichWars_flags (wars : List War) (S : List String) (i : ℕ) (w : War)
    (hw : wars.get? i = some w) :
    ∃ e : EnrichedWar, (enrichWars wars S).get? i = some e ∧ e.war = w ∧
      e.attackerActive = S.contains w.attacker ∧
      e.defenderActive = S.contains w.defender ∧
      e.bothActive = (e.attackerActive && e.defenderActive) := by
  have h : (enrichWars wars S).get? i = (wars.get? i).map (fun w =>
      ({ war := w
         attackerActive := S.contains w.attacker
         defenderActive := S.contains w.defender
         bothActive := S.contains w.attacker && S.contains w.defender } : EnrichedWar)) :=
    List.get?_map _ _ _
  rw [hw] at h
  exact ⟨_, h, rfl, rfl, rfl, rfl⟩

/-- Witness for C7: the spec's end-to-end scenario — war A vs B with the
active set containing A and C yields attacker active, defender inactive,
both-active false. -/
theorem enrichWars_flags_witness :
    ∃ e : EnrichedWar, (enrichWars [warEx] ["A", "C"]).get? 0 = some e ∧
      e.attackerActive = true ∧ e.defenderActive = false ∧ e.bothActive = false := by
  obtain ⟨e, h1, _, h3, h4, h5⟩ := enrichWars_flags [warEx] ["A", "C"] 0 warEx rfl
  refine ⟨e, h1, ?_, ?_, ?_⟩
  · rw [h3]; decide
  · rw [h4]; decide
  · rw [h5, h3, h4]; decide

/-- C6: when the per-city fetch fails after exhausting retries, the catch
block of `scrapeCity` returns the distinct failed variant carrying exactly
name, url, error and scrapedAt, records the failure in the run's error
list, and — because the batch never aborts — every listed city still
produces a record and the error aggregate stays empty. -/
theorem scrapeCity_failed_variant (name msg now : String) :
    (scrapeCity name (Except.error msg) now).1 =
        CityDetail.failed name (cityUrl name) msg now ∧
      (scrapeCity name (Except.error msg) now).2.1 = [⟨"city", name, msg, now⟩] ∧
      ∀ (cities : List RawCity) (g : RawCity → CityDetail) (c : ℕ), 0 < c →
        (phase4 cities g c).1.length = cities.length ∧ (phase4 cities g c).2 = [] := by
  refine ⟨rfl, rfl, ?_⟩
  intro cities g c hc
  unfold phase4
  rw [processBatch_map g c hc cities]
  simp

/-- Witness for C6: a concrete failing fetch yields the failed variant, and
a concrete two-city batch at concurrency 1 still yields two records. -/
theorem scrapeCity_failed_variant_witness :
    (scrapeCity "Atlantis" (Except.error "ETIMEDOUT") "t0").1 =
        CityDetail.failed "Atlantis" (cityUrl "Atlantis") "ETIMEDOUT" "t0" ∧
      (phase4 [cityRecA, cityRecB] (fun _ => CityDetail.failed "n" "u" "e" "t") 1).1.length = 2 := by
  have h := scrapeCity_failed_variant "Atlantis" "ETIMEDOUT" "t0"
  exact ⟨h.1, (h.2.2 [cityRecA, cityRecB] (fun _ => CityDetail.failed "n" "u" "e" "t") 1
    (by decide)).1⟩

/-- C10 (implicit): `scrapeCity` catches every error internally and always
returns a record, so in phase 4 the batch's error collection is empty,
`failedScrapes` is 0, and `successfulScrapes` equals the number of listed
cities — failed-variant records included.  The concurrency is
`options.concurrency || 5`, which is always positive. -/
theorem phase4_metadata (cities : List RawCity) (nameOf : RawCity → String)
    (fetchOf : RawCity → Except String CityPage) (now : String) (copt : Option ℕ) (c : ℕ)
    (hc : c = jsOrDefault copt defaultConcurrency) :
    (phase4 cities (scrapeCityOp nameOf fetchOf now) c).2 = [] ∧
    (phase4 cities (scrapeCityOp nameOf fetchOf now) c).1 =
      cities.map (scrapeCityOp nameOf fetchOf now) ∧
    (buildRunMetadata cities (phase4 cities (scrapeCityOp nameOf fetchOf now) c).1
        (phase4 cities (scrapeCityOp nameOf fetchOf now) c).2).failedScrapes = 0 ∧
    (buildRunMetadata cities (phase4 cities (scrapeCityOp nameOf fetchOf now) c).1
        (phase4 cities (scrapeCityOp nameOf fetchOf now) c).2).successfulScrapes =
      cities.length ∧
    ∀ city ∈ cities,
      scrapeCityOp nameOf fetchOf now city ∈
        (phase4 cities (scrapeCityOp nameOf fetchOf now) c).1 := by
  have hcpos : 0 < c := hc ▸ jsOrDefault_pos copt defaultConcurrency (by decide)
  unfold phase4
  rw [processBatch_map (scrapeCityOp nameOf fetchOf now) c hcpos cities]
  refine ⟨rfl, rfl, rfl, by simp [buildRunMetadata], ?_⟩
  intro city hcity
  exact List.mem_map_of_mem _ hcity

/-- Witness for C10: two listed cities whose fetches both fail still count
as two successful scrapes with zero failures, and the failed-variant record
of the first city is in the results. -/
theorem phase4_metadata_witness :
    (phase4 [cityRecA, cityRecB] (scrapeCityOp nameOfEx fetchFailEx "t1") 5).2 = [] ∧
      (buildRunMetadata [cityRecA, cityRecB]
          (phase4 [cityRecA, cityRecB] (scrapeCityOp nameOfEx fetchFailEx "t1") 5).1
          (phase4 [cityRecA, cityRecB] (scrapeCityOp nameOfEx fetchFailEx "t1") 5).2).successfulScrapes = 2 ∧
      scrapeCityOp nameOfEx fetchFailEx "t1" cityRecA ∈
        (phase4 [cityRecA, cityRecB] (scrapeCityOp nameOfEx fetchFailEx "t1") 5).1 := by
  have h := phase4_metadata [cityRecA, cityRecB] nameOfEx fetchFailEx "t1" none 5 rfl
  exact ⟨h.1, h.2.2.2.1, h.2.2.2.2 cityRecA (List.mem_cons_self cityRecA [cityRecB])⟩

/-! ### Object-update lemmas for the buildings claim -/

theorem objGet_objSet_self {V : Type} (o : List (String × V)) (k : String) (v : V) :
    objGet (objSet o k v) k = some v := by
  induction o with
  | nil => simp [objSet, objGet]
  | cons p t ih =>
    by_cases hp : p.1 = k
    · simp [objSet, objGet, hp]
    · simp [objSet, objGet, hp, ih]

theorem objGet_objSet_ne {V : Type} (o : List (String × V)) (k' k : String) (v : V)
    (h : k' ≠ k) : objGet (objSet o k' v) k = objGet o k := by
  induction o with
  | nil => simp [objSet, objGet, h]
  | cons p t ih =>
    by_cases hp : p.1 = k'
    · have hpk : p.1 ≠ k := by rw [hp]; exact h
      simp [objSet, objGet, hp, h, hpk]
    · by_cases hq : p.1 = k
      · simp [objSet, objGet, hp, hq, Ne.symm h]
      · simp [objSet, objGet, hp, hq, ih]

theorem buildings_foldl_untouched (l : List (String × Option String)) (k : String)
    (hl : ∀ p ∈ l, cleanBuildingName p.1 ≠ k) (b : List (String × JSNum)) :
    objGet (l.foldl buildingStep b) k = objGet b k := by
  induction l generalizing b with
  | nil => rfl
  | cons p t ih =>
    obtain ⟨n, cell⟩ := p
    have hp : cleanBuildingName n ≠ k := hl (n, cell) (by simp)
    have ht : ∀ q ∈ t, cleanBuildingName q.1 ≠ k := fun q hq => hl q (by simp [hq])
    rw [List.foldl_cons, ih ht]
    by_cases hname : n = ""
    · cases cell <;> simp [buildingStep, hname]
    · cases cell with
      | some cellText =>
        unfold buildingStep
        dsimp only
        rw [if_neg hname]
        cases he : extractNumber cellText with
        | some count => exact objGet_objSet_ne b _ k count hp
        | none => rfl
      | none =>
        unfold buildingStep
        dsimp only
        rw [if_neg hname]
        exact objGet_objSet_ne b _ k _ hp

/-- C8 (counterexample): the claim fails as stated when a later building
section normalizes to the same name: the later assignment overwrites the
explicit zero, so the entry for the cell-less section `("A", none)` is 5,
not 0, once `("A", some "5")` follows it. -/
theorem extractBuildings_zero_cex :
    objGet (extractBuildings [("A", none), ("A", some "5")]) (cleanBuildingName "A") =
        some (.rat 5) ∧
      objGet (extractBuildings [("A", none), ("A", some "5")]) (cleanBuildingName "A") ≠
        some (.rat 0) := by decide

/-- C8 (amended): for every building section with a nonempty heading and no
populated count cell, provided no later section normalizes to the same
name (later assignments overwrite), the buildings mapping contains the
explicit entry 0 under the normalized name — the key is never omitted. -/
theorem extractBuildings_zero_entry (pre post : List (String × Option String)) (n : String)
    (hn : n ≠ "") (hpost : ∀ p ∈ post, cleanBuildingName p.1 ≠ cleanBuildingName n) :
    objGet (extractBuildings (pre ++ (n, none) :: post)) (cleanBuildingName n) =
      some (.rat 0) := by
  unfold extractBuildings
  rw [List.foldl_append, List.foldl_cons,
    buildings_foldl_untouched post (cleanBuildingName n) hpost]
  unfold buildingStep
  dsimp only
  rw [if_neg hn]
  exact objGet_objSet_self _ _ _

/-- Witness for C8: a single cell-less section yields the explicit zero
entry under its normalized name. -/
theorem extractBuildings_zero_entry_witness :
    objGet (extractBuildings [("Solar Plant", none)]) (cleanBuildingName "Solar Plant") =
      some (.rat 0) :=
  extractBuildings_zero_entry [] [] "Solar Plant" (by decide) (by simp)

/-! ### Validator lemmas -/

theorem missingCityFields_isEmpty (r : RawCity) :
    (missingCityFields r).isEmpty =
      (!(r.name.isAbsent || r.url.isAbsent || r.pollution.isAbsent || r.citizens.isAbsent)) := by
  cases h1 : r.name.isAbsent <;> cases h2 : r.url.isAbsent <;>
    cases h3 : r.pollution.isAbsent <;> cases h4 : r.citizens.isAbsent <;>
      simp [missingCityFields, requiredCityFields, h1, h2, h3, h4]

theorem mem_collectCities_valid :
    ∀ (raw : List RawCity) (acc : List RawCity × List Warning) (x : RawCity),
      x ∈ (raw.foldl collectStep acc).1 → x ∈ acc.1 ∨ (validateCity x).1 = true := by
  intro raw
  induction raw with
  | nil => exact fun acc x h => Or.inl h
  | cons r t ih =>
    intro acc x h
    rw [List.foldl_cons] at h
    rcases ih _ x h with hmem | hval
    · dsimp only [collectStep] at hmem
      by_cases hv : (validateCity r).1
      · rw [if_pos hv] at hmem
        rcases List.mem_append.mp hmem with hl | hr
        · exact Or.inl hl
        · have : x = r := by simpa using hr
          subst this; exact Or.inr hv
      · rw [if_neg hv] at hmem
        exact Or.inl hmem
    · exact Or.inr hval

/-- C5: a listing record with any of name, url, pollution or citizens
absent is rejected by `validateCity` (with the missing-fields warning) and
excluded from the collected city sequence; a record with all four present
whose citizens value is not a non-negative number (under JS comparison
semantics) is still accepted, with the invalid-citizens warning queued. -/
theorem validateCity_contract (r : RawCity) :
    ((r.name.isAbsent || r.url.isAbsent || r.pollution.isAbsent || r.citizens.isAbsent) =
        true →
      (validateCity r).1 = false ∧
      (validateCity r).2 = [.invalidCityMissing (missingCityFields r) r.name] ∧
      ∀ raw : List RawCity, r ∉ (collectCities raw).1) ∧
    ((r.name.isAbsent || r.url.isAbsent || r.pollution.isAbsent || r.citizens.isAbsent) =
        false →
      isNonNegativeNumberJS r.citizens = false →
      (validateCity r).1 = true ∧
      (validateCity r).2 = [.invalidCityCitizens r.citizens r.name]) := by
  constructor
  · intro habs
    have hne : (missingCityFields r).isEmpty = false := by
      rw [missingCityFields_isEmpty, habs]; rfl
    have hv : validateCity r = (false, [.invalidCityMissing (missingCityFields r) r.name]) := by
      simp [validateCity, hne]
    refine ⟨by rw [hv], by rw [hv], ?_⟩
    intro raw hmem
    rcases mem_collectCities_valid raw ([], []) r hmem with h0 | hval
    · simp at h0
    · rw [hv] at hval
      simp at hval
  · intro habs hnn
    have hemp : (missingCityFields r).isEmpty = true := by
      rw [missingCityFields_isEmpty, habs]; rfl
    have hcond : (!(r.citizens.isNumberType) || r.citizens.ltZero) = true := by
      cases ha : r.citizens.isNumberType <;> cases hb : r.citizens.ltZero <;>
        simp_all [isNonNegativeNumberJS]
    constructor <;> simp [validateCity, hemp, hcond]

/-- Witness for C5: the record with an absent url is rejected and excluded;
the record with citizens -5 is accepted with the warning queued. -/
theorem validateCity_contract_witness :
    (validateCity cityRecNoUrl).1 = false ∧
      cityRecNoUrl ∉ (collectCities [cityRecNoUrl]).1 ∧
      (validateCity cityRecNegCitizens).1 = true ∧
      (validateCity cityRecNegCitizens).2 =
        [.invalidCityCitizens (.num (.rat (-5))) (.str "X")] := by
  have h1 := (validateCity_contract cityRecNoUrl).1 (by decide)
  have h2 := (validateCity_contract cityRecNegCitizens).2 (by decide) (by decide)
  exact ⟨h1.1, h1.2.2 [cityRecNoUrl], h2.1, h2.2⟩

/-! ### String and scanner lemmas for the parser claims -/

theorem toList_mk (l : List Char) : (String.mk l).toList = l := rfl

theorem toList_empty : ("" : String).toList = [] := rfl

theorem mk_ne_empty_of_ne_nil (l : List Char) (h : l ≠ []) : String.mk l ≠ "" := by
  intro he
  have := congrArg String.toList he
  rw [toList_mk, toList_empty] at this
  exact h this

theorem takeWhile_append_all {p : Char → Bool} (xs ys : List Char)
    (h : ∀ x ∈ xs, p x = true) : (xs ++ ys).takeWhile p = xs ++ ys.takeWhile p := by
  induction xs with
  | nil => simp
  | cons a t ih =>
    have ha := h a (by simp)
    simp [List.takeWhile_cons, ha, ih (fun x hx => h x (by simp [hx]))]

theorem dropWhile_append_all {p : Char → Bool} (xs ys : List Char)
    (h : ∀ x ∈ xs, p x = true) : (xs ++ ys).dropWhile p = ys.dropWhile p := by
  induction xs with
  | nil => simp
  | cons a t ih =>
    have ha := h a (by simp)
    simp [List.dropWhile_cons, ha, ih (fun x hx => h x (by simp [hx]))]

theorem takeWhile_all {p : Char → Bool} (l : List Char) (h : ∀ x ∈ l, p x = true) :
    l.takeWhile p = l := by
  have := takeWhile_append_all l [] h
  simpa using this

theorem dropWhile_all {p : Char → Bool} (l : List Char) (h : ∀ x ∈ l, p x = true) :
    l.dropWhile p = [] := by
  have := dropWhile_append_all l [] h
  simpa using this

theorem suffix_not_numC (s : Char) (h : isSuffixC s = true) : isNumC s = false := by
  simp only [isSuffixC, Bool.or_eq_true, beq_iff_eq] at h
  rcases h with (h | h) | h <;> subst h <;> decide

theorem space_not_numC (c : Char) (h : isJsSpace c = true) : isNumC c = false := by
  simp only [isJsSpace, Bool.or_eq_true, beq_iff_eq] at h
  rcases h with ((((h | h) | h) | h) | h) | h <;> subst h <;> decide

theorem numC_not_space (c : Char) (h : isNumC c = true) : isJsSpace c = false := by
  cases hs : isJsSpace c with
  | false => rfl
  | true => rw [space_not_numC c hs] at h; cases h

theorem mem_of_mem_dropWhile {p : Char → Bool} :
    ∀ {l : List Char} {c : Char}, c ∈ l.dropWhile p → c ∈ l := by
  intro l
  induction l with
  | nil => intro c h; simp at h
  | cons d t ih =>
    intro c h
    by_cases hd : p d
    · rw [List.dropWhile_cons_of_pos hd] at h
      exact List.mem_cons.mpr (Or.inr (ih h))
    · rw [List.dropWhile_cons_of_neg hd] at h
      exact h

theorem mem_dropWhile_of_not {p : Char → Bool} :
    ∀ {l : List Char} {c : Char}, c ∈ l → p c = false → c ∈ l.dropWhile p := by
  intro l
  induction l with
  | nil => intro c h; simp at h
  | cons d t ih =>
    intro c h hc
    by_cases hd : p d
    · rw [List.dropWhile_cons_of_pos hd]
      rcases List.mem_cons.mp h with rfl | hmem
      · rw [hd] at hc; cases hc
      · exact ih hmem hc
    · rw [List.dropWhile_cons_of_neg hd]
      exact h

theorem mem_of_mem_jsTrim {l : List Char} {c : Char} (h : c ∈ jsTrim l) : c ∈ l := by
  unfold jsTrim at h
  rw [List.mem_reverse] at h
  have := mem_of_mem_dropWhile h
  rw [List.mem_reverse] at this
  exact mem_of_mem_dropWhile this

theorem mem_jsTrim_of_not_space {l : List Char} {c : Char} (h : c ∈ l)
    (hc : isJsSpace c = false) : c ∈ jsTrim l := by
  unfold jsTrim
  rw [List.mem_reverse]
  refine mem_dropWhile_of_not ?_ hc
  rw [List.mem_reverse]
  exact mem_dropWhile_of_not h hc

theorem scanMatch_signedRun_none (cls : Char → Bool) :
    ∀ (l : List Char), (∀ c ∈ l, cls c = false) → scanMatch (matchSignedRun cls) l = none := by
  intro l
  induction l with
  | nil => intro _; rfl
  | cons c t ih =>
    intro h
    have hc := h c (by simp)
    have ht : ∀ x ∈ t, cls x = false := fun x hx => h x (by simp [hx])
    have hmatch : matchSignedRun cls (c :: t) = none := by
      rw [matchSignedRun]
      by_cases hminus : (c == '-') = true
      · rw [if_pos hminus]
        have htw : t.takeWhile cls = [] := by
          cases t with
          | nil => rfl
          | cons d t' => simp [List.takeWhile_cons, ht d (by simp)]
        rw [htw]
      · rw [if_neg hminus, if_neg (by simp [hc])]
    simp [scanMatch, hmatch, ih ht]

theorem scanMatch_signedRun_ne_none (cls : Char → Bool) (hminus : cls '-' = false) :
    ∀ (l : List Char) (c : Char), c ∈ l → cls c = true →
      scanMatch (matchSignedRun cls) l ≠ none := by
  intro l
  induction l with
  | nil => intro c hc; simp at hc
  | cons d t ih =>
    intro c hc hcls
    rcases List.mem_cons.mp hc with rfl | hmem
    · have hd : (c == '-') = false := by
        by_cases h : c = '-'
        · subst h; rw [hminus] at hcls; cases hcls
        · simp [h]
      have hmatch : ∃ r, matchSignedRun cls (c :: t) = some r := by
        rw [matchSignedRun, if_neg (by simp [hd]), if_pos hcls]
        exact ⟨_, rfl⟩
      obtain ⟨r, hr⟩ := hmatch
      simp [scanMatch, hr]
    · cases hm : matchSignedRun cls (d :: t) with
      | some r => simp [scanMatch, hm]
      | none =>
        simp only [scanMatch, hm, ne_eq]
        exact ih c hmem hcls

theorem scanMatch_signedRun_none_iff (cls : Char → Bool) (hminus : cls '-' = false)
    (l : List Char) :
    scanMatch (matchSignedRun cls) l = none ↔ ∀ c ∈ l, cls c = false := by
  constructor
  · intro h c hc
    cases hcn : cls c with
    | false => rfl
    | true => exact absurd h (scanMatch_signedRun_ne_none cls hminus l c hc hcn)
  · exact scanMatch_signedRun_none cls l

theorem scanMatch_statNumAt_none_iff :
    ∀ (l : List Char),
      scanMatch statNumAt l = none ↔ scanMatch (matchSignedRun isNumC) l = none := by
  intro l
  induction l with
  | nil => simp [scanMatch]
  | cons c t ih =>
    cases hm : matchSignedRun isNumC (c :: t) with
    | some r => simp [scanMatch, statNumAt, hm]
    | none => simp [scanMatch, statNumAt, hm, ih]

theorem parseStatNumber_none_of_scan_none (s : String) (hs : s ≠ "")
    (h : scanMatch statNumAt (jsTrim s.toList) = none) : parseStatNumber s = none := by
  have h' : scanMatch statNumAt (jsTrim s.data) = none := h
  simp [parseStatNumber, if_neg hs, h']

theorem parseStatNumber_ne_none_of_scan (s : String) (hs : s ≠ "") (tok : List Char)
    (suff : Option Char) (h : scanMatch statNumAt (jsTrim s.toList) = some (tok, suff)) :
    parseStatNumber s ≠ none := by
  simp only [parseStatNumber, if_neg hs, h]
  split_ifs <;> simp

theorem parseStatNumber_none_iff (s : String) :
    parseStatNumber s = none ↔ ∀ c ∈ s.toList, isNumC c = false := by
  by_cases hs : s = ""
  · subst hs
    simp [parseStatNumber, toList_empty]
  · constructor
    · intro h c hc
      cases hcn : isNumC c with
      | false => rfl
      | true =>
        exfalso
        have hmem : c ∈ jsTrim s.toList :=
          mem_jsTrim_of_not_space hc (numC_not_space c hcn)
        have hne := scanMatch_signedRun_ne_none isNumC (by decide) _ c hmem hcn
        cases hscan : scanMatch statNumAt (jsTrim s.toList) with
        | none => exact hne ((scanMatch_statNumAt_none_iff _).mp hscan)
        | some r =>
          obtain ⟨tok, suff⟩ := r
          exact parseStatNumber_ne_none_of_scan s hs tok suff hscan h
    · intro hall
      refine parseStatNumber_none_of_scan_none s hs ?_
      rw [scanMatch_statNumAt_none_iff]
      exact scanMatch_signedRun_none isNumC _ (fun c hc => hall c (mem_of_mem_jsTrim hc))

/-- C4 (counterexample): the text `","` contains no digit, hence no signed
decimal number and no leading numeric token, yet `parseStatNumber` returns
`NaN` rather than `null`: the token regex class `[\d,.]` accepts a bare
separator and `parseFloat` of the comma-stripped remainder is `NaN`. -/
theorem parseStatNumber_nan_cex :
    (∀ c ∈ (",").toList, isDigitC c = false) ∧ parseStatNumber "," = some JSNum.nan :=
  ⟨by decide, by decide⟩

/-- C4 (amended): `parseStatNumber` parses a signed decimal number with an
optional case-sensitive magnitude suffix (k, M, G), as witnessed on the
spec's examples; it returns `null` exactly when the text has no character
of the token class `[0-9,.]` — a matched token with no digit (only
separators or dots) yields `NaN` instead of `null`. -/
theorem parseStatNumber_magnitude :
    parseStatNumber "373.69k" = some (.rat 373690) ∧
    parseStatNumber "-18,651" = some (.rat (-18651)) ∧
    parseStatNumber "" = none ∧
    parseStatNumber "2M" = some (.rat 2000000) ∧
    parseStatNumber "3G" = some (.rat 3000000000) ∧
    parseStatNumber "5K" = some (.rat 5) ∧
    ∀ s : String, parseStatNumber s = none ↔ ∀ c ∈ s.toList, isNumC c = false :=
  ⟨by decide, by decide, by decide, by decide, by decide, by decide,
    parseStatNumber_none_iff⟩

/-- Witness for C4: the null-characterization applied at a concrete
letters-only text. -/
theorem parseStatNumber_magnitude_witness : parseStatNumber "abc" = none :=
  (parseStatNumber_magnitude.2.2.2.2.2.2 "abc").mpr (by decide)

theorem jsParseInt_int_or_nan (l : List Char) :
    jsParseInt l = .nan ∨ ∃ n : ℤ, jsParseInt l = .rat (n : ℚ) := by
  simp only [jsParseInt]
  split_ifs with h
  · exact Or.inl rfl
  · exact Or.inr ⟨_, by rw [Rat.mkRat_one]⟩

theorem extractNumber_none_iff (s : String) :
    extractNumber s = none ↔ ∀ c ∈ s.toList, isIntC c = false := by
  by_cases hs : s = ""
  · subst hs; simp [extractNumber, toList_empty]
  · simp only [extractNumber, if_neg hs]
    cases hscan : scanMatch (matchSignedRun isIntC) s.toList with
    | none =>
      constructor
      · intro _
        exact (scanMatch_signedRun_none_iff isIntC (by decide) _).mp hscan
      · intro _; rfl
    | some r =>
      obtain ⟨tok, rest⟩ := r
      constructor
      · intro h; exact Option.noConfusion h
      · intro hall
        exfalso
        have := (scanMatch_signedRun_none_iff isIntC (by decide) s.toList).mpr hall
        rw [hscan] at this
        exact Option.noConfusion this

/-- C9 (counterexample): the text `","` contains no digit, hence no signed
integer-looking token, yet `extractNumber` returns `NaN` — a non-integer,
non-null value — because the regex class `[\d,]` accepts a bare separator
and `parseInt` of the stripped remainder is `NaN`. -/
theorem extractNumber_nan_cex :
    (∀ c ∈ (",").toList, isDigitC c = false) ∧ extractNumber "," = some JSNum.nan :=
  ⟨by decide, by decide⟩

/-- C9 (amended): `extractNumber` never throws (it is total); it returns
`null` exactly when the text has no character of the token class `[0-9,]`;
every non-null result is an integer, except that a matched token containing
no digit (separators only) yields `NaN`; the first matching token is used. -/
theorem extractNumber_contract :
    (∀ s : String, extractNumber s = none ↔ ∀ c ∈ s.toList, isIntC c = false) ∧
    (∀ s : String, extractNumber s = none ∨ extractNumber s = some .nan ∨
      ∃ n : ℤ, extractNumber s = some (.rat (n : ℚ))) ∧
    extractNumber "-18,651" = some (.rat (-18651)) ∧
    extractNumber "12 and 34" = some (.rat 12) ∧
    extractNumber "abc" = none := by
  refine ⟨extractNumber_none_iff, ?_, by decide, by decide, by decide⟩
  intro s
  by_cases hs : s = ""
  · subst hs
    left
    simp [extractNumber]
  · simp only [extractNumber, if_neg hs]
    cases hscan : scanMatch (matchSignedRun isIntC) s.toList with
    | none => exact Or.inl rfl
    | some r =>
      obtain ⟨tok, rest⟩ := r
      rcases jsParseInt_int_or_nan (stripCommas tok) with hn | ⟨n, hn⟩
      · refine Or.inr (Or.inl ?_)
        show some (jsParseInt (stripCommas tok)) = some JSNum.nan
        rw [hn]
      · refine Or.inr (Or.inr ⟨n, ?_⟩)
        show some (jsParseInt (stripCommas tok)) = some (JSNum.rat (n : ℚ))
        rw [hn]

/-- Witness for C9: the null-characterization and the integrality
disjunction applied at concrete inputs. -/
theorem extractNumber_contract_witness :
    extractNumber "xyz" = none ∧
      (extractNumber "7" = none ∨ extractNumber "7" = some .nan ∨
        ∃ n : ℤ, extractNumber "7" = some (.rat (n : ℚ))) :=
  ⟨(extractNumber_contract.1 "xyz").mpr (by decide), extractNumber_contract.2.1 "7"⟩

theorem fractionAt_concat (A Bd S : List Char) (hA : A ≠ [])
    (hAc : ∀ c ∈ A, isNumC c = true) (hB : Bd ≠ []) (hBc : ∀ c ∈ Bd, isNumC c = true)
    (hS : S = [] ∨ ∃ s, S = [s] ∧ isSuffixC s = true) :
    fractionAt (A ++ '/' :: (Bd ++ S)) = some (A, Bd ++ S) := by
  match A, hA with
  | a0 :: A', _ =>
    have ha0 : isNumC a0 = true := hAc a0 (by simp)
    have hA' : ∀ c ∈ A', isNumC c = true := fun c hc => hAc c (by simp [hc])
    have htake : List.takeWhile isNumC (A' ++ '/' :: (Bd ++ S)) = A' := by
      rw [takeWhile_append_all A' _ hA', List.takeWhile_cons_of_neg (by decide)]
      exact List.append_nil A'
    have hdrop : List.dropWhile isNumC (A' ++ '/' :: (Bd ++ S)) = '/' :: (Bd ++ S) := by
      rw [dropWhile_append_all A' _ hA', List.dropWhile_cons_of_neg (by decide)]
    show fractionAt (a0 :: (A' ++ '/' :: (Bd ++ S))) = _
    rw [fractionAt, matchRun, if_pos ha0, htake, hdrop]
    match Bd, hB with
    | b0 :: Bd', _ =>
      have hb0 : isNumC b0 = true := hBc b0 (by simp)
      have hBd' : ∀ c ∈ Bd', isNumC c = true := fun c hc => hBc c (by simp [hc])
      rcases hS with rfl | ⟨s, rfl, hsuf⟩
      · have htb : List.takeWhile isNumC (Bd' ++ []) = Bd' := by
          rw [List.append_nil]
          exact takeWhile_all Bd' hBd'
        have hdb : List.dropWhile isNumC (Bd' ++ []) = [] := by
          rw [List.append_nil]
          exact dropWhile_all Bd' hBd'
        show (match matchRun isNumC ((b0 :: Bd') ++ []) with
          | none => none
          | some (b, rest3) =>
            match rest3 with
            | s :: _ => if isSuffixC s then some (a0 :: A', b ++ [s]) else some (a0 :: A', b)
            | [] => some (a0 :: A', b)) = some (a0 :: A', (b0 :: Bd') ++ [])
        rw [List.append_nil, matchRun, if_pos hb0]
        rw [List.append_nil] at htb hdb
        rw [htb, hdb]
      · have hsn : isNumC s = false := suffix_not_numC s hsuf
        have htb : List.takeWhile isNumC (Bd' ++ [s]) = Bd' := by
          rw [takeWhile_append_all Bd' [s] hBd', List.takeWhile_cons_of_neg (by simp [hsn])]
          exact List.append_nil Bd'
        have hdb : List.dropWhile isNumC (Bd' ++ [s]) = [s] := by
          rw [dropWhile_append_all Bd' [s] hBd', List.dropWhile_cons_of_neg (by simp [hsn])]
        show (match matchRun isNumC ((b0 :: Bd') ++ [s]) with
          | none => none
          | some (b, rest3) =>
            match rest3 with
            | s :: _ => if isSuffixC s then some (a0 :: A', b ++ [s]) else some (a0 :: A', b)
            | [] => some (a0 :: A', b)) = some (a0 :: A', (b0 :: Bd') ++ [s])
        rw [List.cons_append, matchRun, if_pos hb0, htb, hdb]
        simp [hsuf]

theorem scanMatch_cons_some {α : Type} (M : List Char → Option α) (c : Char)
    (t : List Char) (r : α) (h : M (c :: t) = some r) :
    scanMatch M (c :: t) = some r := by
  simp [scanMatch, h]

theorem extractStatValue_fraction (A Bd S : List Char) (hA : A ≠ [])
    (hAc : ∀ c ∈ A, isNumC c = true) (hB : Bd ≠ []) (hBc : ∀ c ∈ Bd, isNumC c = true)
    (hS : S = [] ∨ ∃ s, S = [s] ∧ isSuffixC s = true) :
    extractStatValue (String.mk (A ++ '/' :: (Bd ++ S))) =
      some (.range (parseStatNumber (String.mk A))
        (parseStatNumber (String.mk (Bd ++ S)))) := by
  have hne : String.mk (A ++ '/' :: (Bd ++ S)) ≠ "" :=
    mk_ne_empty_of_ne_nil _ (by cases A <;> simp_all)
  have hfrac := fractionAt_concat A Bd S hA hAc hB hBc hS
  match A, hA with
  | a0 :: A', _ =>
    have hscan : scanMatch fractionAt ((a0 :: A') ++ '/' :: (Bd ++ S)) =
        some (a0 :: A', Bd ++ S) :=
      scanMatch_cons_some fractionAt a0 (A' ++ '/' :: (Bd ++ S)) _ hfrac
    simp only [extractStatValue, if_neg hne, toList_mk]
    rw [hscan]

/-- C1 (counterexample): when the left operand itself carries a magnitude
suffix, the fraction regex `([\d,.]+)\/([\d,.]+[kMG]?)` does not match (its
left class has no suffix letter directly before the slash), so the claimed
pair result fails: the function falls back to a single magnitude parse of
the first token. -/
theorem extractStatValue_suffix_cex :
    extractStatValue "373.69k/374.05k" = some (.single (.rat 373690)) ∧
      extractStatValue "373.69k/374.05k" ≠
        some (.range (some (.rat 373690)) (some (.rat 374050))) :=
  ⟨by decide, by decide⟩

/-- C1 (amended): `extractStatValue` detects an `A/B` pattern only when the
left operand A is a bare `[\d,.]+` token standing immediately before the
slash — A cannot carry a magnitude suffix; in that case A and B are
independently magnitude-parsed and returned as the current/max pair.
Otherwise it falls back to a single magnitude parse; in particular
`"0/300.37k"` gives the pair (0, 300370), `"42"` gives 42, and
`"373.69k/374.05k"` gives the scalar 373690. -/
theorem extractStatValue_shapes :
    extractStatValue "0/300.37k" = some (.range (some (.rat 0)) (some (.rat 300370))) ∧
    extractStatValue "42" = some (.single (.rat 42)) ∧
    extractStatValue "373.69k/374.05k" = some (.single (.rat 373690)) ∧
    ∀ (A Bd S : List Char), A ≠ [] → (∀ c ∈ A, isNumC c = true) → Bd ≠ [] →
      (∀ c ∈ Bd, isNumC c = true) → (S = [] ∨ ∃ s, S = [s] ∧ isSuffixC s = true) →
      extractStatValue (String.mk (A ++ '/' :: (Bd ++ S))) =
        some (.range (parseStatNumber (String.mk A))
          (parseStatNumber (String.mk (Bd ++ S)))) :=
  ⟨by decide, by decide, by decide, extractStatValue_fraction⟩

/-- Witness for C1: the general pair case applied at the concrete division
`12/50`. -/
theorem extractStatValue_shapes_witness :
    extractStatValue (String.mk ("12".toList ++ '/' :: ("50".toList ++ []))) =
      some (.range (parseStatNumber (String.mk "12".toList))
        (parseStatNumber (String.mk ("50".toList ++ [])))) :=
  extractStatValue_shapes.2.2.2 "12".toList "50".toList [] (by decide) (by decide)
    (by decide) (by decide) (Or.inl rfl)

end FragileCity
